import Mathlib

/-!
Verification of the octodns-sakuracloud provider
(`octodns_sakuracloud/__init__.py`).

The development shallowly embeds the provider's record-set decoder
(`SakuraCloudProvider.populate`), encoder (`SakuraCloudProvider._apply`),
and the `SakuraCloudAPI` zone directory with its cache.  Python strings
are modelled as `String` (with `List Char` as the working representation
for serialization), the insertion-ordered `dict` as an association list,
and the stateful API object as explicit state passing.

The per-type rdata text codecs (`parse_rdata_texts`, `Record.rrs`,
`TxtValue.process`, `CaaValue.parse_rdata_text`) live in the external
octodns library and are modelled here from their wire grammars as used by
this provider: MX is "preference exchange", SRV is
"priority weight port target", CAA is "flags tag value" with an optionally
quoted value, SVCB/HTTPS is "priority target [params]" with semicolons in
the params escaped as backslash-semicolon in the internal text form, and
TXT is the quoted 255-character chunked form with semicolons escaped
internally.
-/

namespace SakuraCloud

/-- Working representation of Python strings for serialization helpers. -/
abbrev Chars := List Char

/-- `_add_trailing_dot` from the source: append `'.'` unless the string is
empty or already ends with one. -/
def add_trailing_dot (value : String) : String :=
  if value.length > 0 ∧ value.back ≠ '.' then value ++ "." else value

/-- `_remove_trailing_dot` from the source: drop a final `'.'` if present. -/
def remove_trailing_dot (value : String) : String :=
  if value.length > 0 ∧ value.back = '.' then value.dropRight 1 else value

/-! ### Character-list utilities modelling Python string primitives -/

/-- Decimal digit character for `n < 10`. -/
def digitChar (n : Nat) : Char := Char.ofNat (48 + n)

/-- Fuel-driven decimal rendering of a natural number (most significant
digit first); models Python `str` on a nonnegative `int`. -/
def natDigitsAux : Nat → Nat → Chars
  | 0, _ => []
  | fuel + 1, n =>
    if n < 10 then [digitChar n]
    else natDigitsAux fuel (n / 10) ++ [digitChar (n % 10)]

/-- Decimal rendering of a natural number as a `String`. -/
def natStr (n : Nat) : String := String.mk (natDigitsAux (n + 1) n)

/-- Numeric value of a decimal digit character. -/
def digitVal (c : Char) : Nat := c.toNat - 48

/-- Parse a decimal digit sequence; models Python `int` on the token. -/
def parseNatChars (l : Chars) : Nat := l.foldl (fun a c => a * 10 + digitVal c) 0

/-- Split at the first space: returns the characters before it and, when a
space exists, the characters after it. -/
def splitSpace : Chars → Chars × Option Chars
  | [] => ([], none)
  | c :: rest =>
    if c = ' ' then ([], some rest)
    else
      let p := splitSpace rest
      (c :: p.1, p.2)

/-- Python `value.replace('\\;', ';')`: rewrite every left-to-right
non-overlapping occurrence of backslash-semicolon to a semicolon. -/
def replSemi : Chars → Chars
  | [] => []
  | [c] => [c]
  | c₁ :: c₂ :: rest =>
    if c₁ = '\\' ∧ c₂ = ';' then ';' :: replSemi rest
    else c₁ :: replSemi (c₂ :: rest)

/-- Escape every semicolon as backslash-semicolon; models the semicolon
escaping of octodns value-text parsing for TXT/SVCB/HTTPS. -/
def escSemi : Chars → Chars
  | [] => []
  | c :: rest =>
    if c = ';' then '\\' :: ';' :: escSemi rest
    else c :: escSemi rest

/-- Python `value.replace('" "', '')`: remove every left-to-right
non-overlapping occurrence of the three-character chunk separator. -/
def removeSeps : Chars → Chars
  | [] => []
  | [c] => [c]
  | [c₁, c₂] => [c₁, c₂]
  | c₁ :: c₂ :: c₃ :: rest =>
    if c₁ = '"' ∧ c₂ = ' ' ∧ c₃ = '"' then removeSeps rest
    else c₁ :: removeSeps (c₂ :: c₃ :: rest)

/-- Fuel-driven split of a character list into chunks of `n` characters. -/
def chunksAux (n : Nat) : Nat → Chars → List Chars
  | 0, _ => []
  | _ + 1, [] => []
  | fuel + 1, c :: rest => ((c :: rest).take n) :: chunksAux n fuel ((c :: rest).drop n)

/-- Split into 255-character chunks (the octodns `CHUNK_SIZE`). -/
def chunks255 (l : Chars) : List Chars := chunksAux 255 l.length l

/-- Join chunks with a separator. -/
def joinSep (sep : Chars) : List Chars → Chars
  | [] => []
  | [c] => c
  | c :: cs => c ++ sep ++ joinSep sep cs

/-- The `'" "'` chunk separator. -/
def sepChars : Chars := ['"', ' ', '"']

/-- Models the octodns chunked value text for a TXT value: quote-wrap the
255-character chunks and join them with `'" "'`.  (The model assumes the
text carries no double-quote character; the round-trip theorems hypothesize
this.) -/
def chunkValue (t : String) : String :=
  String.mk ('"' :: (joinSep sepChars (chunks255 t.data) ++ ['"']))

/-- Models `TxtValue.process` on one value: strip the surrounding quotes
when present, then remove every chunk separator. -/
def txtProcessOne (v : String) : String :=
  let w := if v.data.head? = some '"' then (v.data.drop 1).dropLast else v.data
  String.mk (removeSeps w)

/-- Models `TxtValue.process`: per-value chunk joining. -/
def txtProcess (values : List String) : List String := values.map txtProcessOne

/-! ### Data model -/

/-- Typed record values of the supported types.  `plain` covers the
host/address types (A, AAAA, ALIAS, CNAME, NS, PTR) whose rdata text is the
value itself; `svc` covers SVCB and HTTPS. -/
inductive RValue : Type
  | plain (value : String)
  | mx (preference : Nat) (exchange : String)
  | srv (priority weight port : Nat) (target : String)
  | caa (flags : Nat) (tag : String) (value : String)
  | svc (priority : Nat) (target : String) (params : String)
  | txt (text : String)
deriving DecidableEq, Repr

/-- A raw wire row of `Settings.DNS.ResourceRecordSets`: fields `Name`,
`Type`, `RData` and the optional `TTL`. -/
structure RawRow where
  name : String
  type : String
  rdata : String
  ttl : Option Nat
deriving DecidableEq, Repr

/-- A structured record: one per (name, type) pair, with its value list. -/
structure SRecord where
  name : String
  type : String
  ttl : Nat
  values : List RValue
deriving DecidableEq, Repr

/-- `SakuraCloudProvider.SUPPORTS`, the fixed supported type set. -/
def SUPPORTS : List String :=
  ["A", "AAAA", "ALIAS", "CAA", "CNAME", "HTTPS", "MX", "NS", "PTR", "SRV", "SVCB", "TXT"]

/-- `SakuraCloudProvider.DEFAULT_TTL`. -/
def DEFAULT_TTL : Nat := 3600

/-! ### Modelled octodns value codecs -/

/-- Models `MxValue.parse_rdata_text`: "preference exchange". -/
def mxParse (s : String) : RValue :=
  let p := splitSpace s.data
  match p.2 with
  | none => RValue.mx (parseNatChars p.1) ""
  | some rest => RValue.mx (parseNatChars p.1) (String.mk rest)

/-- Models `SrvValue.parse_rdata_text`: "priority weight port target". -/
def srvParse (s : String) : RValue :=
  let p₁ := splitSpace s.data
  match p₁.2 with
  | none => RValue.srv (parseNatChars p₁.1) 0 0 ""
  | some r₁ =>
    let p₂ := splitSpace r₁
    match p₂.2 with
    | none => RValue.srv (parseNatChars p₁.1) (parseNatChars p₂.1) 0 ""
    | some r₂ =>
      let p₃ := splitSpace r₂
      match p₃.2 with
      | none => RValue.srv (parseNatChars p₁.1) (parseNatChars p₂.1) (parseNatChars p₃.1) ""
      | some r₃ =>
        RValue.srv (parseNatChars p₁.1) (parseNatChars p₂.1) (parseNatChars p₃.1)
          (String.mk r₃)

/-- Python `v[1:-1]` applied when the string is wrapped in double quotes. -/
def pyUnquote (l : Chars) : Chars :=
  if 2 ≤ l.length ∧ l.head? = some '"' ∧ l.getLast? = some '"' then (l.drop 1).dropLast
  else l

/-- Models `CaaValue.parse_rdata_text`: "flags tag value", accepting an
optionally quoted value field. -/
def caaParse (s : String) : RValue :=
  let p₁ := splitSpace s.data
  match p₁.2 with
  | none => RValue.caa (parseNatChars p₁.1) "" ""
  | some r₁ =>
    let p₂ := splitSpace r₁
    match p₂.2 with
    | none => RValue.caa (parseNatChars p₁.1) (String.mk p₂.1) ""
    | some r₂ => RValue.caa (parseNatChars p₁.1) (String.mk p₂.1) (String.mk (pyUnquote r₂))

/-- Models `SvcbValue.parse_rdata_text`: "priority target [params]"; the
internal text form escapes semicolons in the params. -/
def svcParse (s : String) : RValue :=
  let p₁ := splitSpace s.data
  match p₁.2 with
  | none => RValue.svc (parseNatChars p₁.1) "" ""
  | some r₁ =>
    let p₂ := splitSpace r₁
    match p₂.2 with
    | none => RValue.svc (parseNatChars p₁.1) (String.mk r₁) ""
    | some r₂ => RValue.svc (parseNatChars p₁.1) (String.mk p₂.1) (String.mk (escSemi r₂))

/-- Models `cls.parse_rdata_text` dispatched on the type tag, as used by
`populate` through `parse_rdata_texts`.  The host/address types pass the
rdata text through unchanged; TXT escapes semicolons. -/
def parseValue (type : String) (s : String) : RValue :=
  if type = "MX" then mxParse s
  else if type = "SRV" then srvParse s
  else if type = "CAA" then caaParse s
  else if type = "SVCB" ∨ type = "HTTPS" then svcParse s
  else if type = "TXT" then RValue.txt (String.mk (escSemi s.data))
  else RValue.plain s

/-- Models the rdata text serialization used by `Record.rrs` for each
supported value shape (for TXT, the chunked value form). -/
def rdataText : RValue → String
  | RValue.plain v => v
  | RValue.mx p e => natStr p ++ " " ++ e
  | RValue.srv p w port t =>
    natStr p ++ " " ++ natStr w ++ " " ++ natStr port ++ " " ++ t
  | RValue.caa f tag v => natStr f ++ " " ++ tag ++ " " ++ v
  | RValue.svc p t params =>
    natStr p ++ " " ++ t ++ (if params = "" then "" else " " ++ params)
  | RValue.txt t => chunkValue t

/-! ### Record-set decoder (`SakuraCloudProvider.populate`) -/

/-- One entry of `rrset_map`: the per-group accumulator built by
`populate`. -/
structure RRSet where
  name : String
  type : String
  rdatas : List String
  ttl : Nat
deriving DecidableEq, Repr

/-- The grouping key `rr["Name"] + '\0' + rr["Type"]`. -/
def rowKey (rr : RawRow) : String := rr.name ++ "\x00" ++ rr.type

/-- Association-list lookup on string keys (Python `key in dict` /
`dict.get`). -/
def assocFind {α : Type} (m : List (String × α)) (k : String) : Option α :=
  match m with
  | [] => none
  | (k', v) :: rest => if k' = k then some v else assocFind rest k

/-- Python `dict[k] = v`: overwrite the entry when the key is present,
otherwise append it. -/
def mapSet {α : Type} (m : List (String × α)) (k : String) (v : α) :
    List (String × α) :=
  match m with
  | [] => [(k, v)]
  | (k', v') :: rest =>
    if k' = k then (k, v) :: rest else (k', v') :: mapSet rest k v

/-- `rrset_map[key]["rdatas"].append(rr["RData"])`: extend the rdata list
of the first entry carrying the key. -/
def appendRData (m : List (String × RRSet)) (k : String) (rdata : String) :
    List (String × RRSet) :=
  match m with
  | [] => []
  | (k', g) :: rest =>
    if k' = k then (k', { g with rdatas := g.rdatas ++ [rdata] }) :: rest
    else (k', g) :: appendRData rest k rdata

/-- One iteration of the grouping loop of `populate`: skip unsupported
types; open a new group (apex renaming, TTL defaulting) on a fresh key;
otherwise append the rdata to the existing group. -/
def populateStep (m : List (String × RRSet)) (rr : RawRow) :
    List (String × RRSet) :=
  if rr.type ∈ SUPPORTS then
    let key := rowKey rr
    match assocFind m key with
    | none =>
      let record_name := if rr.name = "@" then "" else rr.name
      m ++ [(key, { name := record_name, type := rr.type, rdatas := [rr.rdata],
                    ttl := rr.ttl.getD DEFAULT_TTL })]
    | some _ => appendRData m key rr.rdata
  else m

/-- The full `rrset_map` built by the grouping loop of `populate`. -/
def rrsetMap (rows : List RawRow) : List (String × RRSet) :=
  rows.foldl populateStep []

/-- The structured records produced by `populate` from the raw rows: one
record per group, with the rdatas parsed by the type's codec. -/
def decodeRecords (rows : List RawRow) : List SRecord :=
  (rrsetMap rows).map fun kg =>
    { name := kg.2.name, type := kg.2.type, ttl := kg.2.ttl,
      values := kg.2.rdatas.map (parseValue kg.2.type) }

/-! ### Record-set encoder (`SakuraCloudProvider._apply`) -/

/-- Python `value.replace('\\;', ';')` on a `String`. -/
def replSemiStr (s : String) : String := String.mk (replSemi s.data)

/-- The CAA re-encoding of `_apply`: parse the rdata text and re-emit it as
`'flags tag "value"'`. -/
def caaReencode (value : String) : String :=
  match caaParse value with
  | RValue.caa f tag v => natStr f ++ " " ++ tag ++ " \"" ++ v ++ "\""
  | _ => value

/-- The per-record body of the `_apply` loop: apex renaming, TXT chunk
processing, semicolon unescaping for TXT/HTTPS/SVCB, CAA re-encoding, and
TTL omission at the default. -/
def encodeRecord (r : SRecord) : List RawRow :=
  let record_name := if r.name = "" then "@" else r.name
  let values := r.values.map rdataText
  let values := if r.type = "TXT" then txtProcess values else values
  values.map fun value =>
    let value := if r.type ∈ ["TXT", "HTTPS", "SVCB"] then replSemiStr value else value
    let value := if r.type = "CAA" then caaReencode value else value
    { name := record_name, type := r.type, rdata := value,
      ttl := if r.ttl ≠ DEFAULT_TTL then some r.ttl else none : RawRow }

/-- The full flat row list sent by `_apply`. -/
def encodeRows (records : List SRecord) : List RawRow :=
  (records.map encodeRecord).flatten

/-! ### The `SakuraCloudAPI` zone directory -/

/-- The fields of a `CommonServiceItem` the provider reads. -/
structure CommonServiceItem where
  id : String
  serviceClass : String
  statusZone : String
  rrsets : List RawRow
deriving DecidableEq, Repr

/-- The `_common_service_item_map` cache: absent before the first bulk
fetch. -/
structure APIState where
  cache : Option (List (String × CommonServiceItem))
deriving DecidableEq, Repr

/-- The map-building loop of `_get_common_service_item_map`: keep only
`cloud/dns` items, keyed by the trailing-dot form of `Status.Zone`. -/
def buildMap (items : List CommonServiceItem) :
    List (String × CommonServiceItem) :=
  items.foldl
    (fun m item =>
      if item.serviceClass ≠ "cloud/dns" then m
      else mapSet m (add_trailing_dot item.statusZone) item)
    []

/-- `_get_common_service_item_map`: return the cache, building it from the
remote bulk fetch on first use. -/
def get_common_service_item_map (st : APIState)
    (remote : List CommonServiceItem) :
    List (String × CommonServiceItem) × APIState :=
  match st.cache with
  | some m => (m, st)
  | none =>
    let m := buildMap remote
    (m, ⟨some m⟩)

/-- `SakuraCloudAPI.get_zone`. -/
def get_zone (st : APIState) (remote : List CommonServiceItem)
    (zone_name : String) : Option CommonServiceItem × APIState :=
  let p := get_common_service_item_map st remote
  (assocFind p.1 zone_name, p.2)

/-- `SakuraCloudAPI.get_zone_names`. -/
def get_zone_names (st : APIState) (remote : List CommonServiceItem) :
    List String × APIState :=
  let p := get_common_service_item_map st remote
  (p.1.map Prod.fst, p.2)

/-- The wire fields of the create request body that carry the zone name. -/
structure CreateZoneRequest where
  name : String
  statusZone : String
deriving DecidableEq, Repr

/-- `SakuraCloudAPI.create_zone`: strip the trailing dot for the wire
fields, POST, and store the item of the response (`respItem`, supplied by
the remote) into the cache under the `zone_name` argument. -/
def create_zone (st : APIState) (remote : List CommonServiceItem)
    (zone_name : String) (respItem : CommonServiceItem) :
    CreateZoneRequest × APIState :=
  let name := remove_trailing_dot zone_name
  let req : CreateZoneRequest := { name := name, statusZone := name }
  let p := get_common_service_item_map st remote
  (req, ⟨some (mapSet p.1 zone_name respItem)⟩)

/-- `SakuraCloudProvider.list_zones`: the cached zone names, sorted. -/
def list_zones (st : APIState) (remote : List CommonServiceItem) :
    List String × APIState :=
  let p := get_zone_names st remote
  (p.1.mergeSort (fun a b => decide (a ≤ b)), p.2)

/-- `SakuraCloudProvider.populate` at the zone level: the returned
exists-flag and the zone's record list (to which decoded records are
added). -/
def populateZone (st : APIState) (remote : List CommonServiceItem)
    (zone_name : String) (zoneRecords : List SRecord) :
    Bool × List SRecord × APIState :=
  let p := get_zone st remote zone_name
  match p.1 with
  | none => (false, zoneRecords, p.2)
  | some item => (true, zoneRecords ++ decodeRecords item.rrsets, p.2)

/-- The API calls `SakuraCloudProvider._apply` can issue. -/
inductive APICall : Type
  | createZone (zone_name : String)
  | updateZone (zone_name : String) (rrsets : List RawRow)
deriving DecidableEq, Repr

/-- The desired zone of a plan. -/
structure DesiredZone where
  name : String
  records : List SRecord
deriving DecidableEq, Repr

/-- The call sequence issued by `SakuraCloudProvider._apply`: create the
zone when its name is not listed, then update it with the encoded rows. -/
def applyPlan (st : APIState) (remote : List CommonServiceItem)
    (desired : DesiredZone) : List APICall :=
  let zones := (list_zones st remote).1
  (if desired.name ∈ zones then [] else [APICall.createZone desired.name])
    ++ [APICall.updateZone desired.name (encodeRows desired.records)]

/-! ### Specification-layer definitions used by the theorems -/

/-- The wire name of a structured record (`_apply`): apex becomes `"@"`. -/
def wireName (n : String) : String := if n = "" then "@" else n

/-- The structured name of a wire name (`populate`): `"@"` becomes apex. -/
def unapexName (n : String) : String := if n = "@" then "" else n

/-- The grouping key a record's rows carry. -/
def recKey (r : SRecord) : String := wireName r.name ++ "\x00" ++ r.type

/-- First-occurrence deduplication of a key sequence: the order in which
`populate` opens groups. -/
def firstSeen (keys : List String) : List String :=
  keys.foldl (fun acc k => if k ∈ acc then acc else acc ++ [k]) []

/-- The supported-type subsequence of a row list. -/
def supportedRows (rows : List RawRow) : List RawRow :=
  rows.filter fun r => r.type ∈ SUPPORTS

/-- Declarative description of the group `populate` builds for a key: the
first matching row names the group and donates the TTL, and the rdatas
follow row arrival order. -/
def groupSpec (rows : List RawRow) (k : String) : Option RRSet :=
  match (supportedRows rows).filter (fun r => rowKey r = k) with
  | [] => none
  | r :: rs =>
    some { name := unapexName r.name, type := r.type,
           rdatas := (r :: rs).map RawRow.rdata, ttl := r.ttl.getD DEFAULT_TTL }

/-- The per-value serialization pipeline of `_apply`, factored out of
`encodeRecord`. -/
def encodeValue (type : String) (v : RValue) : String :=
  let value := rdataText v
  let value := if type = "TXT" then txtProcessOne value else value
  let value := if type ∈ ["TXT", "HTTPS", "SVCB"] then replSemiStr value else value
  if type = "CAA" then caaReencode value else value

/-- The row a record produces for one of its values. -/
def rowOf (r : SRecord) (v : RValue) : RawRow :=
  { name := wireName r.name, type := r.type, rdata := encodeValue r.type v,
    ttl := if r.ttl ≠ DEFAULT_TTL then some r.ttl else none }

/-- The group the decoder rebuilds from a record's rows. -/
def groupOf (r : SRecord) : RRSet :=
  { name := unapexName (wireName r.name), type := r.type,
    rdatas := r.values.map (encodeValue r.type), ttl := r.ttl }

/-- Well-formedness of a typed value for its type tag: the value shape
matches the tag, and the fields avoid the wire format's meta-characters
(spaces in single-token fields, backslashes in host names, double quotes
in TXT text, a quote-wrapped CAA value) while semicolons are carried in
the escaped internal text form. -/
def WFValue (type : String) : RValue → Prop
  | RValue.plain _ => type ∈ (["A", "AAAA", "ALIAS", "CNAME", "NS", "PTR"] : List String)
  | RValue.mx _ _ => type = "MX"
  | RValue.srv _ _ _ _ => type = "SRV"
  | RValue.caa _ tag v =>
    type = "CAA" ∧ (∀ c ∈ tag.data, c ≠ ' ') ∧
      ¬(2 ≤ v.data.length ∧ v.data.head? = some '"' ∧ v.data.getLast? = some '"')
  | RValue.svc _ t params =>
    (type = "SVCB" ∨ type = "HTTPS") ∧ (∀ c ∈ t.data, c ≠ ' ' ∧ c ≠ '\\') ∧
      escSemi (replSemi params.data) = params.data
  | RValue.txt t =>
    type = "TXT" ∧ (∀ c ∈ t.data, c ≠ '"') ∧ escSemi (replSemi t.data) = t.data

instance (type : String) (v : RValue) : Decidable (WFValue type v) := by
  cases v <;> simp only [WFValue] <;> infer_instance

/-- Well-formedness of a structured record: a supported type, a name that
is not the literal `"@"`, at least one value, and well-formed values. -/
def WFRecord (r : SRecord) : Prop :=
  r.type ∈ SUPPORTS ∧ r.name ≠ "@" ∧ r.values ≠ [] ∧ ∀ v ∈ r.values, WFValue r.type v

instance (r : SRecord) : Decidable (WFRecord r) := by
  unfold WFRecord; infer_instance

/-- Sample structured records covering the supported value shapes (values
taken from the repository's test fixtures). -/
def exampleRecords : List SRecord :=
  [{ name := "", type := "A", ttl := 0,
     values := [RValue.plain "1.2.3.4", RValue.plain "10.10.10.10"] },
   { name := "mx1", type := "MX", ttl := 3,
     values := [RValue.mx 10 "mx1.unit.tests.", RValue.mx 20 "mx2.unit.tests."] },
   { name := "_srv._tcp", type := "SRV", ttl := 6,
     values := [RValue.srv 10 20 30 "foo-1.unit.tests."] },
   { name := "caa", type := "CAA", ttl := 9,
     values := [RValue.caa 0 "issue" "ca.unit.tests"] },
   { name := "www", type := "HTTPS", ttl := 9,
     values := [RValue.svc 1 "." "alpn=h2"] },
   { name := "txt2", type := "TXT", ttl := 9,
     values := [RValue.txt "txt multiple test", RValue.txt "txt multiple test 2"] },
   { name := "aa", type := "A", ttl := 3600, values := [RValue.plain "1.2.4.3"] }]

/-- Sample raw rows (from the repository's test fixtures), including an
unsupported SOA row and a row with no TTL field. -/
def exampleRows : List RawRow :=
  [{ name := "@", type := "A", rdata := "1.2.3.4", ttl := some 0 },
   { name := "@", type := "A", rdata := "10.10.10.10", ttl := some 0 },
   { name := "x", type := "SOA", rdata := "ns1 root 1 2 3 4 5", ttl := some 1 },
   { name := "aa", type := "A", rdata := "1.2.4.3", ttl := none }]

/-- A sample remote `CommonServiceItem`. -/
def exampleItem : CommonServiceItem :=
  { id := "999999999999", serviceClass := "cloud/dns", statusZone := "unit.tests",
    rrsets := [] }

/-! ### Helper lemmas: decimal rendering and parsing -/

lemma digitChar_spec (n : Nat) (h : n < 10) :
    digitVal (digitChar n) = n ∧ digitChar n ≠ ' ' ∧ digitChar n ≠ '\\' ∧
      digitChar n ≠ '"' ∧ digitChar n ≠ ';' := by
  interval_cases n <;> refine ⟨rfl, by decide, by decide, by decide, by decide⟩

lemma natDigitsAux_mem (fuel : Nat) : ∀ (n : Nat), ∀ c ∈ natDigitsAux fuel n,
    ∃ d, d < 10 ∧ c = digitChar d := by
  induction fuel with
  | zero => intro n c hc; simp [natDigitsAux] at hc
  | succ fuel ih =>
    intro n c hc
    unfold natDigitsAux at hc
    by_cases h : n < 10
    · rw [if_pos h] at hc
      simp only [List.mem_singleton] at hc
      exact ⟨n, h, hc⟩
    · rw [if_neg h] at hc
      rcases List.mem_append.mp hc with hc | hc
      · exact ih _ c hc
      · simp only [List.mem_singleton] at hc
        exact ⟨n % 10, Nat.mod_lt _ (by norm_num), hc⟩

lemma natStr_mem (n : Nat) : ∀ c ∈ (natStr n).data,
    c ≠ ' ' ∧ c ≠ '\\' ∧ c ≠ '"' ∧ c ≠ ';' := by
  intro c hc
  obtain ⟨d, hd, rfl⟩ := natDigitsAux_mem _ _ c hc
  obtain ⟨-, h₁, h₂, h₃, h₄⟩ := digitChar_spec d hd
  exact ⟨h₁, h₂, h₃, h₄⟩

lemma parse_natDigitsAux (fuel : Nat) : ∀ n ≤ fuel, ∀ a : Nat,
    List.foldl (fun a c => a * 10 + digitVal c) a (natDigitsAux (fuel + 1) n) =
      a * 10 ^ (natDigitsAux (fuel + 1) n).length + n := by
  induction fuel with
  | zero =>
    intro n hn a
    interval_cases n
    simp [natDigitsAux, digitVal, digitChar]
  | succ fuel ih =>
    intro n hn a
    by_cases h : n < 10
    · have hd := (digitChar_spec n h).1
      simp [natDigitsAux, h, hd]
    · have h10 : (10 : Nat) ≤ n := Nat.le_of_not_lt h
      have hlt : n / 10 < n := Nat.div_lt_self (by omega) (by norm_num)
      have hle : n / 10 ≤ fuel := by omega
      have heq : natDigitsAux (fuel + 1 + 1) n =
          natDigitsAux (fuel + 1) (n / 10) ++ [digitChar (n % 10)] := by
        rw [natDigitsAux, if_neg h]
      rw [heq, List.foldl_append, ih _ hle a]
      have hd := (digitChar_spec (n % 10) (Nat.mod_lt _ (by norm_num))).1
      simp only [List.foldl_cons, List.foldl_nil, List.length_append,
        List.length_singleton, hd]
      rw [pow_succ]
      have := Nat.div_add_mod n 10
      ring_nf
      omega

lemma parse_natStr (n : Nat) : parseNatChars (natStr n).data = n := by
  have h := parse_natDigitsAux n n le_rfl 0
  simpa [parseNatChars, natStr] using h

/-! ### Helper lemmas: space splitting -/

lemma splitSpace_no_space (l : Chars) (h : ∀ c ∈ l, c ≠ ' ') :
    splitSpace l = (l, none) := by
  induction l with
  | nil => rfl
  | cons c r ih =>
    have hc : c ≠ ' ' := h c (List.mem_cons_self _ _)
    have ih' := ih fun c hc => h c (List.mem_cons_of_mem _ hc)
    simp [splitSpace, hc, ih']

lemma splitSpace_append (a b : Chars) (h : ∀ c ∈ a, c ≠ ' ') :
    splitSpace (a ++ ' ' :: b) = (a, some b) := by
  induction a with
  | nil => simp [splitSpace]
  | cons c r ih =>
    have hc : c ≠ ' ' := h c (List.mem_cons_self _ _)
    have ih' := ih fun c hc => h c (List.mem_cons_of_mem _ hc)
    simp [splitSpace, hc, ih']

/-! ### Helper lemmas: semicolon escaping -/

lemma replSemi_cons_of_ne (x : Char) (l : Chars) (hx : x ≠ '\\') :
    replSemi (x :: l) = x :: replSemi l := by
  cases l with
  | nil => rfl
  | cons y t => simp only [replSemi]; rw [if_neg (by exact fun h => hx h.1)]

lemma replSemi_pat (t : Chars) : replSemi ('\\' :: ';' :: t) = ';' :: replSemi t := by
  simp [replSemi]

lemma replSemi_append_left (a b : Chars) (h : ∀ c ∈ a, c ≠ '\\') :
    replSemi (a ++ b) = a ++ replSemi b := by
  induction a with
  | nil => rfl
  | cons x xs ih =>
    have hx : x ≠ '\\' := h x (List.mem_cons_self _ _)
    have ih' := ih fun c hc => h c (List.mem_cons_of_mem _ hc)
    rw [List.cons_append, replSemi_cons_of_ne x _ hx, ih', List.cons_append]

lemma replSemi_of_no_bs (a : Chars) (h : ∀ c ∈ a, c ≠ '\\') : replSemi a = a := by
  have h₀ : replSemi ([] : Chars) = [] := rfl
  have := replSemi_append_left a [] h
  simpa [h₀] using this

lemma escSemi_ne_nil (l : Chars) (h : l ≠ []) : escSemi l ≠ [] := by
  cases l with
  | nil => exact absurd rfl h
  | cons c r =>
    by_cases hc : c = ';' <;> simp [escSemi, hc]

lemma escSemi_head_ne (l : Chars) (d : Char) (t : Chars) (h : escSemi l = d :: t) :
    d ≠ ';' := by
  cases l with
  | nil => simp [escSemi] at h
  | cons c r =>
    by_cases hc : c = ';'
    · rw [hc, show escSemi (';' :: r) = '\\' :: ';' :: escSemi r by simp [escSemi]] at h
      injection h with h₁ h₂
      rw [← h₁]
      decide
    · rw [show escSemi (c :: r) = c :: escSemi r by simp [escSemi, hc]] at h
      injection h with h₁ h₂
      rw [← h₁]
      exact hc

lemma replSemi_escSemi (l : Chars) : replSemi (escSemi l) = l := by
  induction l with
  | nil => rfl
  | cons c r ih =>
    by_cases hc : c = ';'
    · subst hc
      rw [show escSemi (';' :: r) = '\\' :: ';' :: escSemi r by simp [escSemi],
        replSemi_pat, ih]
    · rw [show escSemi (c :: r) = c :: escSemi r by simp [escSemi, hc]]
      cases hr : escSemi r with
      | nil =>
        have hrnil : r = [] := by
          by_contra hne
          exact escSemi_ne_nil r hne hr
        subst hrnil
        rfl
      | cons d t =>
        have hd : d ≠ ';' := escSemi_head_ne r d t hr
        have hcd : replSemi (c :: d :: t) = c :: replSemi (d :: t) := by
          simp only [replSemi]
          rw [if_neg (by exact fun h => hd h.2)]
        rw [hcd, ← hr, ih]

/-! ### Helper lemmas: TXT chunking -/

lemma removeSeps_cons_of_ne (x : Char) (l : Chars) (hx : x ≠ '"') :
    removeSeps (x :: l) = x :: removeSeps l := by
  match l with
  | [] => rfl
  | [c] => rfl
  | c₁ :: c₂ :: t =>
    simp only [removeSeps]
    rw [if_neg (by exact fun h => hx h.1)]

lemma removeSeps_append_left (a b : Chars) (h : ∀ c ∈ a, c ≠ '"') :
    removeSeps (a ++ b) = a ++ removeSeps b := by
  induction a with
  | nil => rfl
  | cons x xs ih =>
    have hx : x ≠ '"' := h x (List.mem_cons_self _ _)
    have ih' := ih fun c hc => h c (List.mem_cons_of_mem _ hc)
    rw [List.cons_append, removeSeps_cons_of_ne x _ hx, ih', List.cons_append]

lemma removeSeps_sep (t : Chars) : removeSeps ('"' :: ' ' :: '"' :: t) = removeSeps t := by
  simp [removeSeps]

lemma removeSeps_joinSep (chunks : List Chars)
    (h : ∀ ch ∈ chunks, ∀ c ∈ ch, c ≠ '"') :
    removeSeps (joinSep sepChars chunks) = chunks.flatten := by
  induction chunks with
  | nil => rfl
  | cons ch cs ih =>
    cases cs with
    | nil =>
      have h₁ := h ch (List.mem_cons_self _ _)
      have h₀ : removeSeps ([] : Chars) = [] := rfl
      have := removeSeps_append_left ch [] h₁
      simpa [joinSep, h₀] using this
    | cons ch₂ cs₂ =>
      have h₁ := h ch (List.mem_cons_self _ _)
      have ih' := ih fun ch hc => h ch (List.mem_cons_of_mem _ hc)
      have hjoin : joinSep sepChars (ch :: ch₂ :: cs₂) =
          ch ++ ('"' :: ' ' :: '"' :: joinSep sepChars (ch₂ :: cs₂)) := by
        simp [joinSep, sepChars]
      rw [hjoin, removeSeps_append_left _ _ h₁, removeSeps_sep, ih']
      simp

lemma chunksAux_flatten (n : Nat) (hn : 0 < n) : ∀ fuel (l : Chars),
    l.length ≤ fuel → (chunksAux n fuel l).flatten = l := by
  intro fuel
  induction fuel with
  | zero =>
    intro l hl
    rw [List.eq_nil_of_length_eq_zero (Nat.le_zero.mp hl)]
    rfl
  | succ f ih =>
    intro l hl
    cases l with
    | nil => rfl
    | cons c r =>
      simp only [chunksAux, List.flatten_cons]
      have hlen : (List.drop n (c :: r)).length ≤ f := by
        rw [List.length_drop, List.length_cons]
        have hl' : r.length + 1 ≤ f + 1 := by simpa using hl
        omega
      rw [ih _ hlen]
      exact List.take_append_drop n (c :: r)

lemma chunksAux_mem (n : Nat) : ∀ fuel (l : Chars), ∀ ch ∈ chunksAux n fuel l,
    ∀ c ∈ ch, c ∈ l := by
  intro fuel
  induction fuel with
  | zero => intro l ch hch; simp [chunksAux] at hch
  | succ f ih =>
    intro l ch hch c hc
    cases l with
    | nil => simp [chunksAux] at hch
    | cons x r =>
      simp only [chunksAux] at hch
      rcases List.mem_cons.mp hch with h | h
      · exact List.take_subset _ _ (h ▸ hc)
      · exact List.drop_subset _ _ (ih _ ch h c hc)

lemma txtProcessOne_quoted (l : Chars) :
    txtProcessOne (String.mk ('"' :: (l ++ ['"']))) = String.mk (removeSeps l) := by
  unfold txtProcessOne
  simp

lemma txtProcessOne_chunkValue (t : String) (h : ∀ c ∈ t.data, c ≠ '"') :
    txtProcessOne (chunkValue t) = t := by
  rw [show chunkValue t = String.mk ('"' :: (joinSep sepChars (chunks255 t.data) ++ ['"']))
      from rfl,
    txtProcessOne_quoted,
    show chunks255 t.data = chunksAux 255 t.data.length t.data from rfl,
    removeSeps_joinSep _ (fun ch hch c hc => h c (chunksAux_mem 255 _ _ ch hch c hc)),
    chunksAux_flatten 255 (by norm_num) _ _ le_rfl]

/-! ### Helper lemmas: per-value encode/parse round trip -/

lemma string_eta (s : String) : String.mk s.data = s := rfl

lemma data_space : (" " : String).data = [' '] := rfl

lemma data_space_quote : (" \"" : String).data = [' ', '"'] := rfl

lemma data_quote : ("\"" : String).data = ['"'] := rfl

lemma caaParse_shape (f : Nat) (tag : String) (rest : Chars)
    (htag : ∀ c ∈ tag.data, c ≠ ' ') (s : String)
    (hs : s.data = (natStr f).data ++ ' ' :: (tag.data ++ ' ' :: rest)) :
    caaParse s = RValue.caa f tag (String.mk (pyUnquote rest)) := by
  unfold caaParse
  rw [hs, splitSpace_append _ _ fun c hc => (natStr_mem f c hc).1]
  simp only []
  rw [splitSpace_append _ _ htag]
  simp [parse_natStr, string_eta]

lemma pyUnquote_wrapped (v : Chars) : pyUnquote ('"' :: (v ++ ['"'])) = v := by
  unfold pyUnquote
  rw [if_pos]
  · simp [List.dropLast_concat]
  · refine ⟨by simp, rfl, ?_⟩
    rw [show ('"' :: (v ++ ['"'])) = ('"' :: v) ++ ['"'] by simp, List.getLast?_concat]

lemma mxParse_shape (p : Nat) (e : String) (s : String)
    (hs : s.data = (natStr p).data ++ ' ' :: e.data) :
    mxParse s = RValue.mx p e := by
  unfold mxParse
  rw [hs, splitSpace_append _ _ fun c hc => (natStr_mem p c hc).1]
  simp [parse_natStr, string_eta]

lemma srvParse_shape (p w port : Nat) (t : String) (s : String)
    (hs : s.data = (natStr p).data ++ ' ' ::
      ((natStr w).data ++ ' ' :: ((natStr port).data ++ ' ' :: t.data))) :
    srvParse s = RValue.srv p w port t := by
  unfold srvParse
  rw [hs, splitSpace_append _ _ fun c hc => (natStr_mem p c hc).1]
  simp only []
  rw [splitSpace_append _ _ fun c hc => (natStr_mem w c hc).1]
  simp only []
  rw [splitSpace_append _ _ fun c hc => (natStr_mem port c hc).1]
  simp [parse_natStr, string_eta]

lemma svcParse_shape (p : Nat) (t : String) (rest : Chars)
    (ht : ∀ c ∈ t.data, c ≠ ' ') (s : String)
    (hs : s.data = (natStr p).data ++ ' ' :: (t.data ++ ' ' :: rest)) :
    svcParse s = RValue.svc p t (String.mk (escSemi rest)) := by
  unfold svcParse
  rw [hs, splitSpace_append _ _ fun c hc => (natStr_mem p c hc).1]
  simp only []
  rw [splitSpace_append _ _ ht]
  simp [parse_natStr, string_eta]

lemma svcParse_shape_noparams (p : Nat) (t : String)
    (ht : ∀ c ∈ t.data, c ≠ ' ') (s : String)
    (hs : s.data = (natStr p).data ++ ' ' :: t.data) :
    svcParse s = RValue.svc p t "" := by
  unfold svcParse
  rw [hs, splitSpace_append _ _ fun c hc => (natStr_mem p c hc).1]
  simp only []
  rw [splitSpace_no_space _ ht]
  simp [parse_natStr, string_eta]

lemma parse_encodeValue (type : String) (v : RValue) (h : WFValue type v) :
    parseValue type (encodeValue type v) = v := by
  cases v with
  | plain s =>
    have h' : type ∈ (["A", "AAAA", "ALIAS", "CNAME", "NS", "PTR"] : List String) := h
    fin_cases h' <;> simp [encodeValue, parseValue, rdataText]
  | mx p e =>
    have htype : type = "MX" := h
    subst htype
    have henc : encodeValue "MX" (RValue.mx p e) = natStr p ++ " " ++ e := by
      simp [encodeValue, rdataText]
    rw [henc]
    have : parseValue "MX" (natStr p ++ " " ++ e) = mxParse (natStr p ++ " " ++ e) := by
      simp [parseValue]
    rw [this, mxParse_shape p e _ (by simp [String.data_append, data_space])]
  | srv p w port t =>
    have htype : type = "SRV" := h
    subst htype
    have henc : encodeValue "SRV" (RValue.srv p w port t) =
        natStr p ++ " " ++ natStr w ++ " " ++ natStr port ++ " " ++ t := by
      simp [encodeValue, rdataText]
    rw [henc]
    have hp : parseValue "SRV" (natStr p ++ " " ++ natStr w ++ " " ++ natStr port ++ " " ++ t) =
        srvParse (natStr p ++ " " ++ natStr w ++ " " ++ natStr port ++ " " ++ t) := by
      simp [parseValue]
    rw [hp, srvParse_shape p w port t _ (by simp [String.data_append, data_space])]
  | caa f tag v =>
    obtain ⟨htype, htag, hv⟩ := h
    subst htype
    have henc : encodeValue "CAA" (RValue.caa f tag v) =
        caaReencode (natStr f ++ " " ++ tag ++ " " ++ v) := by
      simp [encodeValue, rdataText]
    have hparse₁ : caaParse (natStr f ++ " " ++ tag ++ " " ++ v) =
        RValue.caa f tag v := by
      rw [caaParse_shape f tag v.data htag _ (by simp [String.data_append, data_space])]
      rw [show pyUnquote v.data = v.data from if_neg hv, string_eta]
    have hre : caaReencode (natStr f ++ " " ++ tag ++ " " ++ v) =
        natStr f ++ " " ++ tag ++ " \"" ++ v ++ "\"" := by
      unfold caaReencode
      rw [hparse₁]
    rw [henc, hre]
    have hp : parseValue "CAA" (natStr f ++ " " ++ tag ++ " \"" ++ v ++ "\"") =
        caaParse (natStr f ++ " " ++ tag ++ " \"" ++ v ++ "\"") := by
      simp [parseValue]
    rw [hp, caaParse_shape f tag ('"' :: (v.data ++ ['"'])) htag _
      (by simp [String.data_append, data_space, data_space_quote, data_quote]),
      pyUnquote_wrapped, string_eta]
  | svc p t params =>
    obtain ⟨htype, ht, hesc⟩ := h
    have ht' : ∀ c ∈ t.data, c ≠ ' ' := fun c hc => (ht c hc).1
    have htb : ∀ c ∈ t.data, c ≠ '\\' := fun c hc => (ht c hc).2
    by_cases hp : params = ""
    · subst hp
      have henc : encodeValue type (RValue.svc p t "") =
          replSemiStr (natStr p ++ " " ++ t) := by
        rcases htype with h | h <;> subst h <;>
          simp [encodeValue, rdataText]
      have hdata : (natStr p ++ " " ++ t).data = (natStr p).data ++ ' ' :: t.data := by
        simp [String.data_append, data_space]
      have hrepl : replSemiStr (natStr p ++ " " ++ t) = natStr p ++ " " ++ t := by
        unfold replSemiStr
        rw [hdata, replSemi_of_no_bs]
        · rw [← hdata, string_eta]
        · intro c hc
          rcases List.mem_append.mp hc with hc | hc
          · exact (natStr_mem p c hc).2.1
          · rcases List.mem_cons.mp hc with hc | hc
            · rw [hc]; decide
            · exact htb c hc
      have hsvc : svcParse (natStr p ++ " " ++ t) = RValue.svc p t "" :=
        svcParse_shape_noparams p t ht' _ hdata
      rcases htype with h | h <;> subst h <;>
        rw [henc, hrepl] <;> simp [parseValue] <;> exact hsvc
    · have henc : encodeValue type (RValue.svc p t params) =
          replSemiStr (natStr p ++ " " ++ t ++ " " ++ params) := by
        rcases htype with h | h <;> subst h <;>
          simp [encodeValue, rdataText, hp, String.append_assoc]
      have hdata : (natStr p ++ " " ++ t ++ " " ++ params).data =
          ((natStr p).data ++ ' ' :: (t.data ++ [' '])) ++ params.data := by
        simp [String.data_append, data_space]
      have hnb : ∀ c ∈ (natStr p).data ++ ' ' :: (t.data ++ [' ']), c ≠ '\\' := by
        intro c hc
        rcases List.mem_append.mp hc with hc | hc
        · exact (natStr_mem p c hc).2.1
        · rcases List.mem_cons.mp hc with hc | hc
          · rw [hc]; decide
          · rcases List.mem_append.mp hc with hc | hc
            · exact htb c hc
            · rcases List.mem_singleton.mp hc with hc
              rw [hc]; decide
      have hrepl : (replSemiStr (natStr p ++ " " ++ t ++ " " ++ params)).data =
          (natStr p).data ++ ' ' :: (t.data ++ ' ' :: replSemi params.data) := by
        unfold replSemiStr
        rw [hdata, replSemi_append_left _ _ hnb]
        simp
      have hsvc : svcParse (replSemiStr (natStr p ++ " " ++ t ++ " " ++ params)) =
          RValue.svc p t (String.mk (escSemi (replSemi params.data))) :=
        svcParse_shape p t (replSemi params.data) ht' _ hrepl
      rw [hesc, string_eta] at hsvc
      rcases htype with h | h <;> subst h <;>
        rw [henc] <;> simp [parseValue] <;> exact hsvc
  | txt t =>
    obtain ⟨htype, hq, hesc⟩ := h
    subst htype
    have henc : encodeValue "TXT" (RValue.txt t) =
        replSemiStr (txtProcessOne (chunkValue t)) := by
      simp [encodeValue, rdataText, txtProcessOne]
    rw [henc, txtProcessOne_chunkValue t hq]
    have hp : parseValue "TXT" (replSemiStr t) =
        RValue.txt (String.mk (escSemi (replSemiStr t).data)) := by
      simp [parseValue]
    rw [hp]
    show RValue.txt (String.mk (escSemi (replSemi t.data))) = RValue.txt t
    rw [hesc, string_eta]

/-! ### Helper lemmas: association lists and grouping -/

lemma assocFind_append_of_none {α : Type} (m₁ m₂ : List (String × α)) (k : String)
    (h : assocFind m₁ k = none) : assocFind (m₁ ++ m₂) k = assocFind m₂ k := by
  induction m₁ with
  | nil => rfl
  | cons kv rest ih =>
    obtain ⟨k', v⟩ := kv
    by_cases hk : k' = k
    · simp [assocFind, hk] at h
    · simp only [assocFind, if_neg hk] at h
      simp only [List.cons_append, assocFind, if_neg hk]
      exact ih h

lemma assocFind_append_of_some {α : Type} (m₁ m₂ : List (String × α)) (k : String)
    (v : α) (h : assocFind m₁ k = some v) : assocFind (m₁ ++ m₂) k = some v := by
  induction m₁ with
  | nil => simp [assocFind] at h
  | cons kv rest ih =>
    obtain ⟨k', v'⟩ := kv
    by_cases hk : k' = k
    · simp only [assocFind, if_pos hk] at h
      simp only [List.cons_append, assocFind, if_pos hk]
      exact h
    · simp only [assocFind, if_neg hk] at h
      simp only [List.cons_append, assocFind, if_neg hk]
      exact ih h

lemma assocFind_append_single_self {α : Type} (m : List (String × α)) (k : String)
    (v : α) (h : assocFind m k = none) : assocFind (m ++ [(k, v)]) k = some v := by
  rw [assocFind_append_of_none _ _ _ h]
  simp [assocFind]

lemma assocFind_append_single_other {α : Type} (m : List (String × α)) (k k' : String)
    (v : α) (hk : k' ≠ k) : assocFind (m ++ [(k, v)]) k' = assocFind m k' := by
  cases h : assocFind m k' with
  | some w => exact assocFind_append_of_some _ _ _ _ h
  | none =>
    rw [assocFind_append_of_none _ _ _ h]
    have hne : ¬k = k' := fun hkk => hk hkk.symm
    simp [assocFind, hne, h]

lemma appendRData_keys (m : List (String × RRSet)) (k : String) (d : String) :
    (appendRData m k d).map Prod.fst = m.map Prod.fst := by
  induction m with
  | nil => rfl
  | cons kv rest ih =>
    obtain ⟨k', g⟩ := kv
    by_cases hk : k' = k <;> simp [appendRData, hk, ih]

lemma assocFind_appendRData_same (m : List (String × RRSet)) (k : String) (d : String) :
    assocFind (appendRData m k d) k =
      (assocFind m k).map fun g => { g with rdatas := g.rdatas ++ [d] } := by
  induction m with
  | nil => rfl
  | cons kv rest ih =>
    obtain ⟨k', g⟩ := kv
    by_cases hk : k' = k
    · simp [appendRData, assocFind, hk]
    · simp [appendRData, assocFind, hk, ih]

lemma assocFind_appendRData_other (m : List (String × RRSet)) (k k' : String)
    (d : String) (hk : k' ≠ k) :
    assocFind (appendRData m k d) k' = assocFind m k' := by
  induction m with
  | nil => rfl
  | cons kv rest ih =>
    obtain ⟨k₀, g⟩ := kv
    by_cases h₀ : k₀ = k
    · rw [show appendRData ((k₀, g) :: rest) k d =
          (k₀, { g with rdatas := g.rdatas ++ [d] }) :: rest by
        simp [appendRData, h₀]]
      have hne : ¬k₀ = k' := by rw [h₀]; exact fun hkk => hk hkk.symm
      simp only [assocFind, if_neg hne]
    · rw [show appendRData ((k₀, g) :: rest) k d = (k₀, g) :: appendRData rest k d by
        simp [appendRData, h₀]]
      simp only [assocFind]
      by_cases h₁ : k₀ = k'
      · rw [if_pos h₁, if_pos h₁]
      · rw [if_neg h₁, if_neg h₁, ih]

lemma firstSeen_aux_mem (l : List String) : ∀ (acc : List String) (x : String),
    x ∈ l.foldl (fun acc k => if k ∈ acc then acc else acc ++ [k]) acc ↔
      x ∈ acc ∨ x ∈ l := by
  induction l with
  | nil => simp
  | cons k rest ih =>
    intro acc x
    simp only [List.foldl_cons]
    by_cases hk : k ∈ acc
    · rw [if_pos hk, ih]
      constructor
      · rintro (h | h)
        · exact Or.inl h
        · exact Or.inr (List.mem_cons_of_mem _ h)
      · rintro (h | h)
        · exact Or.inl h
        · rcases List.mem_cons.mp h with rfl | h
          · exact Or.inl hk
          · exact Or.inr h
    · rw [if_neg hk, ih]
      simp only [List.mem_append, List.mem_singleton, List.mem_cons]
      tauto

lemma mem_firstSeen (l : List String) (x : String) : x ∈ firstSeen l ↔ x ∈ l := by
  rw [firstSeen, firstSeen_aux_mem]
  simp

lemma firstSeen_concat (l : List String) (k : String) :
    firstSeen (l ++ [k]) =
      if k ∈ firstSeen l then firstSeen l else firstSeen l ++ [k] := by
  simp [firstSeen, List.foldl_append]

lemma groupSpec_none_iff (rows : List RawRow) (k : String) :
    groupSpec rows k = none ↔ k ∉ (supportedRows rows).map rowKey := by
  constructor
  · intro h hmem
    obtain ⟨r, hr, hkk⟩ := List.mem_map.mp hmem
    have hin : r ∈ (supportedRows rows).filter (fun r => rowKey r = k) :=
      List.mem_filter.mpr ⟨hr, by simp [hkk]⟩
    unfold groupSpec at h
    cases hfil : (supportedRows rows).filter (fun r => rowKey r = k) with
    | nil => rw [hfil] at hin; simp at hin
    | cons r₀ rs => rw [hfil] at h; simp at h
  · intro hmem
    unfold groupSpec
    have hfil : (supportedRows rows).filter (fun r => rowKey r = k) = [] := by
      rw [List.filter_eq_nil_iff]
      intro a ha
      simp only [decide_eq_true_eq]
      intro hkk
      exact hmem (List.mem_map.mpr ⟨a, ha, hkk⟩)
    rw [hfil]

lemma groupSpec_cons_eq (rows : List RawRow) (k : String) (r₀ : RawRow) (rs : List RawRow)
    (hfil : (supportedRows rows).filter (fun r => rowKey r = k) = r₀ :: rs) :
    groupSpec rows k =
      some { name := unapexName r₀.name, type := r₀.type,
             rdatas := (r₀ :: rs).map RawRow.rdata, ttl := r₀.ttl.getD DEFAULT_TTL } := by
  unfold groupSpec
  rw [hfil]

lemma supportedRows_concat_mem (rows : List RawRow) (r : RawRow)
    (h : r.type ∈ SUPPORTS) : supportedRows (rows ++ [r]) = supportedRows rows ++ [r] := by
  simp [supportedRows, List.filter_append, h]

lemma supportedRows_concat_not_mem (rows : List RawRow) (r : RawRow)
    (h : r.type ∉ SUPPORTS) : supportedRows (rows ++ [r]) = supportedRows rows := by
  simp [supportedRows, List.filter_append, h]

lemma rrsetMap_concat (rows : List RawRow) (r : RawRow) :
    rrsetMap (rows ++ [r]) = populateStep (rrsetMap rows) r := by
  simp [rrsetMap, List.foldl_append]

/-- Master characterization of the grouping loop of `populate`: the group
keys appear in first-seen order, and the group at each key is described by
`groupSpec` (first row names the group and donates the TTL, rdatas follow
arrival order). -/
lemma rrsetMap_spec (rows : List RawRow) :
    (rrsetMap rows).map Prod.fst = firstSeen ((supportedRows rows).map rowKey) ∧
      ∀ k, assocFind (rrsetMap rows) k = groupSpec rows k := by
  induction rows using List.reverseRecOn with
  | nil =>
    constructor
    · rfl
    · intro k; rfl
  | append_singleton rows r ih =>
    obtain ⟨ihk, ihf⟩ := ih
    by_cases hsup : r.type ∈ SUPPORTS
    · have hfilter := supportedRows_concat_mem rows r hsup
      cases hfind : assocFind (rrsetMap rows) (rowKey r) with
      | none =>
        have hgs : groupSpec rows (rowKey r) = none := by rw [← ihf]; exact hfind
        have hnotmem : rowKey r ∉ (supportedRows rows).map rowKey :=
          (groupSpec_none_iff rows (rowKey r)).mp hgs
        have hfil : (supportedRows rows).filter (fun r' => rowKey r' = rowKey r) = [] := by
          rw [List.filter_eq_nil_iff]
          intro a ha
          simp only [decide_eq_true_eq]
          intro hk
          exact hnotmem (List.mem_map.mpr ⟨a, ha, hk⟩)
        have hm' : rrsetMap (rows ++ [r]) = rrsetMap rows ++
            [(rowKey r, { name := if r.name = "@" then "" else r.name, type := r.type,
                          rdatas := [r.rdata], ttl := r.ttl.getD DEFAULT_TTL })] := by
          rw [rrsetMap_concat]
          simp [populateStep, hsup, hfind]
        constructor
        · rw [hm', hfilter]
          simp only [List.map_append, List.map_cons, List.map_nil]
          rw [firstSeen_concat, if_neg (fun h => hnotmem ((mem_firstSeen _ _).mp h)), ihk]
        · intro k
          by_cases hk : k = rowKey r
          · subst hk
            rw [hm', assocFind_append_single_self _ _ _ hfind]
            unfold groupSpec
            rw [hfilter, List.filter_append, hfil]
            simp [unapexName]
          · rw [hm', assocFind_append_single_other _ _ _ _ hk, ihf]
            unfold groupSpec
            rw [hfilter, List.filter_append]
            have hne : ¬rowKey r = k := fun hkk => hk hkk.symm
            rw [show List.filter (fun r' => decide (rowKey r' = k)) [r] = [] by simp [hne]]
            rw [List.append_nil]
      | some g =>
        have hgs : groupSpec rows (rowKey r) = some g := by rw [← ihf]; exact hfind
        have hmem : rowKey r ∈ (supportedRows rows).map rowKey := by
          by_contra hmem
          rw [← groupSpec_none_iff rows (rowKey r)] at hmem
          rw [hmem] at hgs
          exact Option.noConfusion hgs
        have hm' : rrsetMap (rows ++ [r]) = appendRData (rrsetMap rows) (rowKey r) r.rdata := by
          rw [rrsetMap_concat]
          simp [populateStep, hsup, hfind]
        constructor
        · rw [hm', appendRData_keys, ihk, hfilter]
          simp only [List.map_append, List.map_cons, List.map_nil]
          rw [firstSeen_concat, if_pos ((mem_firstSeen _ _).mpr hmem)]
        · intro k
          by_cases hk : k = rowKey r
          · subst hk
            rw [hm', assocFind_appendRData_same, hfind]
            cases hfil : (supportedRows rows).filter (fun r' => rowKey r' = rowKey r) with
            | nil =>
              unfold groupSpec at hgs
              rw [hfil] at hgs
              exact Option.noConfusion hgs
            | cons r₀ rs =>
              rw [groupSpec_cons_eq rows _ r₀ rs hfil] at hgs
              have hfil' : (supportedRows (rows ++ [r])).filter
                  (fun r' => rowKey r' = rowKey r) = r₀ :: (rs ++ [r]) := by
                rw [hfilter, List.filter_append, hfil]
                simp
              rw [groupSpec_cons_eq (rows ++ [r]) _ r₀ (rs ++ [r]) hfil']
              simp only [Option.some.injEq] at hgs
              rw [← hgs]
              simp [List.map_append]
          · rw [hm', assocFind_appendRData_other _ _ _ _ hk, ihf]
            unfold groupSpec
            rw [hfilter, List.filter_append]
            have hne : ¬rowKey r = k := fun hkk => hk hkk.symm
            rw [show List.filter (fun r' => decide (rowKey r' = k)) [r] = [] by simp [hne]]
            rw [List.append_nil]
    · have hfilter := supportedRows_concat_not_mem rows r hsup
      have hm' : rrsetMap (rows ++ [r]) = rrsetMap rows := by
        rw [rrsetMap_concat]
        simp [populateStep, hsup]
      constructor
      · rw [hm', hfilter, ihk]
      · intro k
        rw [hm']
        unfold groupSpec
        rw [hfilter]
        have hk := ihf k
        unfold groupSpec at hk
        exact hk

/-! ### Helper lemmas: the encoder's block structure -/

lemma ttlOpt_getD (t : Nat) :
    (if t ≠ DEFAULT_TTL then some t else none).getD DEFAULT_TTL = t := by
  by_cases h : t = DEFAULT_TTL <;> simp [h]

lemma ttlOpt_getD_flip (t : Nat) :
    (if t = DEFAULT_TTL then none else some t).getD DEFAULT_TTL = t := by
  by_cases h : t = DEFAULT_TTL <;> simp [h]

lemma unapex_wire (n : String) (h : n ≠ "@") : unapexName (wireName n) = n := by
  unfold wireName unapexName
  by_cases hn : n = ""
  · simp [hn]
  · simp [hn, h]

lemma wireName_inj (n₁ n₂ : String) (h₁ : n₁ ≠ "@") (h₂ : n₂ ≠ "@")
    (h : wireName n₁ = wireName n₂) : n₁ = n₂ := by
  have := congrArg unapexName h
  rwa [unapex_wire n₁ h₁, unapex_wire n₂ h₂] at this

lemma data_nul : ("\x00" : String).data = [Char.ofNat 0] := rfl

lemma sep_inj (c : Char) : ∀ (a a' b b' : Chars), c ∉ b → c ∉ b' →
    a ++ c :: b = a' ++ c :: b' → a = a' ∧ b = b' := by
  intro a
  induction a with
  | nil =>
    intro a' b b' hb hb' h
    cases a' with
    | nil =>
      simp only [List.nil_append, List.cons.injEq] at h
      exact ⟨rfl, h.2⟩
    | cons x t =>
      simp only [List.nil_append, List.cons_append, List.cons.injEq] at h
      obtain ⟨hc, hrest⟩ := h
      exfalso
      apply hb
      rw [hrest]
      exact List.mem_append.mpr (Or.inr (List.mem_cons_self _ _))
  | cons x t ih =>
    intro a' b b' hb hb' h
    cases a' with
    | nil =>
      simp only [List.cons_append, List.nil_append, List.cons.injEq] at h
      obtain ⟨hc, hrest⟩ := h
      exfalso
      apply hb'
      rw [← hrest]
      exact List.mem_append.mpr (Or.inr (List.mem_cons_self _ _))
    | cons y u =>
      simp only [List.cons_append, List.cons.injEq] at h
      obtain ⟨hxy, hrest⟩ := h
      obtain ⟨h₁, h₂⟩ := ih u b b' hb hb' hrest
      exact ⟨by rw [hxy, h₁], h₂⟩

lemma supports_no_nul (t : String) (h : t ∈ SUPPORTS) : Char.ofNat 0 ∉ t.data := by
  fin_cases h <;> decide

lemma rowKey_data (r : RawRow) :
    (rowKey r).data = r.name.data ++ Char.ofNat 0 :: r.type.data := by
  simp [rowKey, String.data_append, data_nul]

lemma rowKey_inj (r₁ r₂ : RawRow) (h₁ : r₁.type ∈ SUPPORTS) (h₂ : r₂.type ∈ SUPPORTS) :
    rowKey r₁ = rowKey r₂ ↔ r₁.name = r₂.name ∧ r₁.type = r₂.type := by
  constructor
  · intro h
    have hd : r₁.name.data ++ Char.ofNat 0 :: r₁.type.data =
        r₂.name.data ++ Char.ofNat 0 :: r₂.type.data := by
      have := congrArg String.data h
      rwa [rowKey_data, rowKey_data] at this
    obtain ⟨hn, ht⟩ := sep_inj (Char.ofNat 0) _ _ _ _
      (supports_no_nul _ h₁) (supports_no_nul _ h₂) hd
    constructor
    · calc r₁.name = String.mk r₁.name.data := rfl
        _ = String.mk r₂.name.data := by rw [hn]
        _ = r₂.name := rfl
    · calc r₁.type = String.mk r₁.type.data := rfl
        _ = String.mk r₂.type.data := by rw [ht]
        _ = r₂.type := rfl
  · rintro ⟨hn, ht⟩
    rw [rowKey, rowKey, hn, ht]

lemma encodeRecord_eq (r : SRecord) : encodeRecord r = r.values.map (rowOf r) := by
  by_cases h : r.type = "TXT"
  · simp [encodeRecord, rowOf, encodeValue, txtProcess, List.map_map, wireName, h]
  · simp [encodeRecord, rowOf, encodeValue, txtProcess, List.map_map, wireName, h]

lemma rowOf_key (r : SRecord) (v : RValue) : rowKey (rowOf r v) = recKey r := by
  simp [rowKey, rowOf, recKey]

lemma appendRData_append_fresh (m₀ : List (String × RRSet)) (k : String) (g : RRSet)
    (d : String) (h : assocFind m₀ k = none) :
    appendRData (m₀ ++ [(k, g)]) k d =
      m₀ ++ [(k, { g with rdatas := g.rdatas ++ [d] })] := by
  induction m₀ with
  | nil => simp [appendRData]
  | cons kv rest ih =>
    obtain ⟨k', v⟩ := kv
    by_cases hk : k' = k
    · simp [assocFind, hk] at h
    · simp only [assocFind, if_neg hk] at h
      simp [appendRData, hk, ih h]

lemma foldl_block_tail (r : SRecord) (hsup : r.type ∈ SUPPORTS) :
    ∀ (vs : List RValue) (m₀ : List (String × RRSet)) (g : RRSet),
    assocFind m₀ (recKey r) = none →
    List.foldl populateStep (m₀ ++ [(recKey r, g)]) (vs.map (rowOf r)) =
      m₀ ++ [(recKey r, { g with rdatas := g.rdatas ++ vs.map (encodeValue r.type) })] := by
  intro vs
  induction vs with
  | nil => intro m₀ g _; simp
  | cons v vt ih =>
    intro m₀ g hnone
    simp only [List.map_cons, List.foldl_cons]
    have hfind : assocFind (m₀ ++ [(recKey r, g)]) (recKey r) = some g :=
      assocFind_append_single_self _ _ _ hnone
    have hstep : populateStep (m₀ ++ [(recKey r, g)]) (rowOf r v) =
        appendRData (m₀ ++ [(recKey r, g)]) (recKey r) (rowOf r v).rdata := by
      unfold populateStep
      rw [if_pos (show (rowOf r v).type ∈ SUPPORTS from hsup)]
      simp only [rowOf_key, hfind]
    rw [hstep, appendRData_append_fresh _ _ _ _ hnone]
    have := ih m₀ { g with rdatas := g.rdatas ++ [(rowOf r v).rdata] } hnone
    rw [this]
    simp [rowOf, List.append_assoc]

lemma rrsetMap_encode_blocks : ∀ (recs : List SRecord) (m : List (String × RRSet)),
    (∀ r ∈ recs, r.type ∈ SUPPORTS) →
    (∀ r ∈ recs, r.values ≠ []) →
    (∀ r ∈ recs, assocFind m (recKey r) = none) →
    (recs.map recKey).Nodup →
    List.foldl populateStep m (encodeRows recs) =
      m ++ recs.map fun r => (recKey r, groupOf r) := by
  intro recs
  induction recs with
  | nil => intro m _ _ _ _; simp [encodeRows]
  | cons r rest ih =>
    intro m hsup hvals hfresh hnd
    have hr := hsup r (List.mem_cons_self _ _)
    have hrf := hfresh r (List.mem_cons_self _ _)
    have henc : encodeRows (r :: rest) = encodeRecord r ++ encodeRows rest := by
      simp [encodeRows]
    rw [henc, List.foldl_append]
    have hblock : List.foldl populateStep m (encodeRecord r) =
        m ++ [(recKey r, groupOf r)] := by
      rw [encodeRecord_eq]
      cases hv : r.values with
      | nil => exact absurd hv (hvals r (List.mem_cons_self _ _))
      | cons v vt =>
        simp only [List.map_cons, List.foldl_cons]
        have h₁ : populateStep m (rowOf r v) =
            m ++ [(recKey r,
                   { name := unapexName (wireName r.name), type := r.type,
                     rdatas := [encodeValue r.type v], ttl := r.ttl })] := by
          unfold populateStep
          rw [if_pos (show (rowOf r v).type ∈ SUPPORTS from hr)]
          simp only [rowOf_key, hrf]
          simp [rowOf, unapexName, ttlOpt_getD, ttlOpt_getD_flip]
        rw [h₁, foldl_block_tail r hr vt m _ hrf]
        have hgrp : groupOf r =
            { name := unapexName (wireName r.name), type := r.type,
              rdatas := encodeValue r.type v :: vt.map (encodeValue r.type), ttl := r.ttl } := by
          simp [groupOf, hv]
        rw [hgrp]
        simp
    rw [hblock]
    have hfresh' : ∀ r' ∈ rest, assocFind (m ++ [(recKey r, groupOf r)]) (recKey r') = none := by
      intro r' hr'
      have hne : recKey r' ≠ recKey r := by
        intro heq
        have : recKey r ∈ rest.map recKey := List.mem_map.mpr ⟨r', hr', heq⟩
        simp only [List.map_cons, List.nodup_cons] at hnd
        exact hnd.1 this
      rw [assocFind_append_single_other _ _ _ _ hne]
      exact hfresh r' (List.mem_cons_of_mem _ hr')
    have hnd' : (rest.map recKey).Nodup := by
      simp only [List.map_cons, List.nodup_cons] at hnd
      exact hnd.2
    rw [ih (m ++ [(recKey r, groupOf r)])
      (fun r' hr' => hsup r' (List.mem_cons_of_mem _ hr'))
      (fun r' hr' => hvals r' (List.mem_cons_of_mem _ hr'))
      hfresh' hnd']
    simp

lemma rrsetMap_encodeRows (recs : List SRecord)
    (hsup : ∀ r ∈ recs, r.type ∈ SUPPORTS)
    (hvals : ∀ r ∈ recs, r.values ≠ [])
    (hnd : (recs.map recKey).Nodup) :
    rrsetMap (encodeRows recs) = recs.map fun r => (recKey r, groupOf r) := by
  have := rrsetMap_encode_blocks recs [] hsup hvals (fun r _ => rfl) hnd
  simpa [rrsetMap] using this

/-! ### Helper lemmas: small decoding facts -/

lemma rrsetMap_filter_aux (rows : List RawRow) : ∀ (m : List (String × RRSet)),
    List.foldl populateStep m rows = List.foldl populateStep m (supportedRows rows) := by
  induction rows with
  | nil => intro m; rfl
  | cons r rest ih =>
    intro m
    by_cases h : r.type ∈ SUPPORTS
    · rw [show supportedRows (r :: rest) = r :: supportedRows rest by
        simp [supportedRows, h]]
      simp only [List.foldl_cons]
      exact ih _
    · rw [show supportedRows (r :: rest) = supportedRows rest by
        simp [supportedRows, h]]
      simp only [List.foldl_cons]
      rw [show populateStep m r = m by simp [populateStep, h]]
      exact ih _

lemma rrsetMap_single (row : RawRow) (h : row.type ∈ SUPPORTS) :
    rrsetMap [row] = [(rowKey row,
      { name := unapexName row.name, type := row.type, rdatas := [row.rdata],
        ttl := row.ttl.getD DEFAULT_TTL })] := by
  simp [rrsetMap, populateStep, h, assocFind, unapexName]

lemma encodeRows_single (r : SRecord) : encodeRows [r] = encodeRecord r := by
  simp [encodeRows]

lemma assocFind_mapSet_self {α : Type} (m : List (String × α)) (k : String) (v : α) :
    assocFind (mapSet m k v) k = some v := by
  induction m with
  | nil => simp [mapSet, assocFind]
  | cons kv rest ih =>
    obtain ⟨k', v'⟩ := kv
    by_cases hk : k' = k
    · simp [mapSet, assocFind, hk]
    · simp [mapSet, assocFind, hk, ih]

/-! ### Claims -/

/-- C4: a raw row whose type is outside the supported set contributes
nothing to the decoded record set and raises no error (decoding is a total
function): the decode result over the full sequence equals the decode
result over the subsequence of supported-type rows. -/
theorem claim_unsupported_filtered (rows : List RawRow) :
    decodeRecords rows = decodeRecords (rows.filter fun r => r.type ∈ SUPPORTS) := by
  unfold decodeRecords
  rw [show rrsetMap rows = rrsetMap (rows.filter fun r => r.type ∈ SUPPORTS) from
    rrsetMap_filter_aux rows []]

/-- C5: the decoder produces one group per distinct (Name, Type) pair (for
supported rows, keys coincide exactly when name and type coincide), the
groups appear in first-seen order of their keys, within a group the rdatas
appear in row arrival order, and the group's TTL is taken from the group's
first row (`groupSpec` takes the TTL from the first matching row even when
later rows carry a different TTL). -/
theorem claim_grouping (rows : List RawRow) :
    (rrsetMap rows).map Prod.fst = firstSeen ((supportedRows rows).map rowKey)
    ∧ (∀ k, assocFind (rrsetMap rows) k = groupSpec rows k)
    ∧ ∀ r₁ ∈ supportedRows rows, ∀ r₂ ∈ supportedRows rows,
        (rowKey r₁ = rowKey r₂ ↔ r₁.name = r₂.name ∧ r₁.type = r₂.type) := by
  refine ⟨(rrsetMap_spec rows).1, (rrsetMap_spec rows).2, ?_⟩
  intro r₁ h₁ r₂ h₂
  simp only [supportedRows, List.mem_filter, decide_eq_true_eq] at h₁ h₂
  exact rowKey_inj r₁ r₂ h₁.2 h₂.2

/-- Witness for C5 at the sample rows. -/
theorem claim_grouping_witness :
    ((rrsetMap exampleRows).map Prod.fst =
      firstSeen ((supportedRows exampleRows).map rowKey))
    ∧ assocFind (rrsetMap exampleRows)
        (rowKey { name := "@", type := "A", rdata := "1.2.3.4", ttl := some 0 }) =
      groupSpec exampleRows
        (rowKey { name := "@", type := "A", rdata := "1.2.3.4", ttl := some 0 })
    ∧ (rowKey { name := "@", type := "A", rdata := "1.2.3.4", ttl := some 0 } =
        rowKey { name := "@", type := "A", rdata := "10.10.10.10", ttl := some 0 } ↔
        ("@" : String) = "@" ∧ ("A" : String) = "A") :=
  ⟨(claim_grouping exampleRows).1,
   (claim_grouping exampleRows).2.1 _,
   (claim_grouping exampleRows).2.2
     { name := "@", type := "A", rdata := "1.2.3.4", ttl := some 0 } (by decide)
     { name := "@", type := "A", rdata := "10.10.10.10", ttl := some 0 } (by decide)⟩

/-- C2: a row emitted for a record carries the TTL field exactly when the
record's ttl differs from 3600 (and then carries that value); decoding a
single row materializes a missing TTL as 3600 and otherwise keeps the
row's TTL; decoding the rows emitted for a record recovers the record's
ttl exactly. -/
theorem claim_ttl_asymmetry :
    (∀ r : SRecord, ∀ row ∈ encodeRecord r,
        (row.ttl = none ↔ r.ttl = DEFAULT_TTL) ∧ row.ttl.getD DEFAULT_TTL = r.ttl)
    ∧ (∀ row : RawRow, row.type ∈ SUPPORTS →
        (decodeRecords [row]).map SRecord.ttl = [row.ttl.getD DEFAULT_TTL])
    ∧ ∀ r : SRecord, r.type ∈ SUPPORTS → r.values ≠ [] →
        (decodeRecords (encodeRecord r)).map SRecord.ttl = [r.ttl] := by
  refine ⟨?_, ?_, ?_⟩
  · intro r row hrow
    rw [encodeRecord_eq] at hrow
    obtain ⟨v, hv, rfl⟩ := List.mem_map.mp hrow
    constructor
    · by_cases h : r.ttl = DEFAULT_TTL <;> simp [rowOf, h]
    · simp only [rowOf]
      exact ttlOpt_getD r.ttl
  · intro row h
    unfold decodeRecords
    rw [rrsetMap_single row h]
    simp
  · intro r hsup hvals
    have hsup' : ∀ r' ∈ [r], r'.type ∈ SUPPORTS := by
      intro r' hr'
      rw [List.mem_singleton] at hr'
      rw [hr']
      exact hsup
    have hvals' : ∀ r' ∈ [r], r'.values ≠ [] := by
      intro r' hr'
      rw [List.mem_singleton] at hr'
      rw [hr']
      exact hvals
    have h := rrsetMap_encodeRows [r] hsup' hvals' (by simp)
    unfold decodeRecords
    rw [← encodeRows_single, h]
    simp [groupOf]

/-- Witness for C2 at a no-TTL row and a default-TTL record. -/
theorem claim_ttl_asymmetry_witness :
    ((decodeRecords [{ name := "aa", type := "A", rdata := "1.2.4.3", ttl := none }]).map
        SRecord.ttl = [Option.getD none DEFAULT_TTL])
    ∧ (decodeRecords (encodeRecord
        { name := "aa", type := "A", ttl := 3600,
          values := [RValue.plain "1.2.4.3"] })).map SRecord.ttl = [3600] :=
  ⟨claim_ttl_asymmetry.2.1 { name := "aa", type := "A", rdata := "1.2.4.3", ttl := none }
      (by decide),
   claim_ttl_asymmetry.2.2
     { name := "aa", type := "A", ttl := 3600, values := [RValue.plain "1.2.4.3"] }
     (by decide) (by decide)⟩

/-- C3: a record with empty name encodes to rows named `"@"` while any
other record name passes through unchanged, and decoding a row named
`"@"` yields the empty structured name while any other row name passes
through unchanged. -/
theorem claim_apex_naming :
    (∀ r : SRecord, r.name = "" → ∀ row ∈ encodeRecord r, row.name = "@")
    ∧ (∀ r : SRecord, r.name ≠ "" → ∀ row ∈ encodeRecord r, row.name = r.name)
    ∧ (∀ row : RawRow, row.type ∈ SUPPORTS → row.name = "@" →
        (decodeRecords [row]).map SRecord.name = [""])
    ∧ ∀ row : RawRow, row.type ∈ SUPPORTS → row.name ≠ "@" →
        (decodeRecords [row]).map SRecord.name = [row.name] := by
  refine ⟨?_, ?_, ?_, ?_⟩
  · intro r h row hrow
    rw [encodeRecord_eq] at hrow
    obtain ⟨v, hv, rfl⟩ := List.mem_map.mp hrow
    simp [rowOf, wireName, h]
  · intro r h row hrow
    rw [encodeRecord_eq] at hrow
    obtain ⟨v, hv, rfl⟩ := List.mem_map.mp hrow
    simp [rowOf, wireName, h]
  · intro row hs h
    unfold decodeRecords
    rw [rrsetMap_single row hs]
    simp [unapexName, h]
  · intro row hs h
    unfold decodeRecords
    rw [rrsetMap_single row hs]
    simp [unapexName, h]

/-- Witness for C3 at an apex record and an apex row. -/
theorem claim_apex_naming_witness :
    (∀ row ∈ encodeRecord
        { name := "", type := "A", ttl := 0, values := [RValue.plain "1.2.3.4"] },
      row.name = "@")
    ∧ (decodeRecords
        [{ name := "@", type := "A", rdata := "1.2.3.4", ttl := some 0 }]).map
        SRecord.name = [""]
    ∧ (decodeRecords
        [{ name := "aa", type := "A", rdata := "1.2.4.3", ttl := none }]).map
        SRecord.name = ["aa"] :=
  ⟨claim_apex_naming.1 _ rfl,
   claim_apex_naming.2.2.1 _ (by decide) rfl,
   claim_apex_naming.2.2.2 { name := "aa", type := "A", rdata := "1.2.4.3", ttl := none }
     (by decide) (by decide)⟩

lemma recKey_data (r : SRecord) :
    (recKey r).data = (wireName r.name).data ++ Char.ofNat 0 :: r.type.data := by
  simp [recKey, String.data_append, data_nul]

/-- C6: for TXT, HTTPS and SVCB records every emitted RData is the
serialized value text with each left-to-right occurrence of
backslash-semicolon replaced by a plain semicolon (`replSemiStr`), and for
TXT the chunked value form is joined into a single logical text value
(`txtProcess`) before that replacement; values of every other type are
emitted without the replacement (CAA through its re-encoding, the rest
verbatim). -/
theorem claim_semicolon_unescape (r : SRecord) :
    (r.type = "TXT" →
      (encodeRecord r).map RawRow.rdata =
        (txtProcess (r.values.map rdataText)).map replSemiStr)
    ∧ (r.type = "HTTPS" ∨ r.type = "SVCB" →
      (encodeRecord r).map RawRow.rdata =
        r.values.map fun v => replSemiStr (rdataText v))
    ∧ (r.type = "CAA" →
      (encodeRecord r).map RawRow.rdata =
        r.values.map fun v => caaReencode (rdataText v))
    ∧ (r.type ∉ (["TXT", "HTTPS", "SVCB"] : List String) → r.type ≠ "CAA" →
      (encodeRecord r).map RawRow.rdata = r.values.map rdataText) := by
  refine ⟨?_, ?_, ?_, ?_⟩
  · intro h
    simp [encodeRecord, h, txtProcess, List.map_map, replSemiStr]
  · rintro (h | h) <;> simp [encodeRecord, h, List.map_map, replSemiStr]
  · intro h
    simp [encodeRecord, h, List.map_map]
  · intro h₁ h₂
    have h₀ : r.type ≠ "TXT" := fun h => h₁ (by rw [h]; exact List.mem_cons_self _ _)
    simp [encodeRecord, h₀, h₁, h₂, List.map_map]

/-- Witness for C6 at one record of each branch. -/
theorem claim_semicolon_unescape_witness :
    ((encodeRecord
        { name := "t", type := "TXT", ttl := 5, values := [RValue.txt "a\\;b"] }).map
        RawRow.rdata =
      (txtProcess ([RValue.txt "a\\;b"].map rdataText)).map replSemiStr)
    ∧ ((encodeRecord
        { name := "w", type := "HTTPS", ttl := 9,
          values := [RValue.svc 1 "." "alpn=h2"] }).map RawRow.rdata =
      [RValue.svc 1 "." "alpn=h2"].map fun v => replSemiStr (rdataText v))
    ∧ ((encodeRecord
        { name := "caa", type := "CAA", ttl := 9,
          values := [RValue.caa 0 "issue" "ca.unit.tests"] }).map RawRow.rdata =
      [RValue.caa 0 "issue" "ca.unit.tests"].map fun v => caaReencode (rdataText v))
    ∧ (encodeRecord
        { name := "aa", type := "A", ttl := 3600,
          values := [RValue.plain "1.2.4.3"] }).map RawRow.rdata =
      [RValue.plain "1.2.4.3"].map rdataText :=
  ⟨(claim_semicolon_unescape _).1 rfl,
   (claim_semicolon_unescape _).2.1 (Or.inl rfl),
   (claim_semicolon_unescape _).2.2.1 rfl,
   (claim_semicolon_unescape _).2.2.2 (by decide) (by decide)⟩

/-- C7: applying a plan for a zone whose name is listed issues exactly one
update call; for an unlisted zone it issues a create call followed by the
single update call. -/
theorem claim_zone_creation_flow (st : APIState) (remote : List CommonServiceItem)
    (desired : DesiredZone) :
    (desired.name ∈ (list_zones st remote).1 →
      applyPlan st remote desired =
        [APICall.updateZone desired.name (encodeRows desired.records)])
    ∧ (desired.name ∉ (list_zones st remote).1 →
      applyPlan st remote desired =
        [APICall.createZone desired.name,
         APICall.updateZone desired.name (encodeRows desired.records)]) := by
  constructor <;> intro h <;> simp [applyPlan, h]

/-- Witness for C7 for an existing and for a missing zone. -/
theorem claim_zone_creation_flow_witness :
    (applyPlan ⟨some [("unit.tests.", exampleItem)]⟩ []
        { name := "unit.tests.", records := [] } =
      [APICall.updateZone "unit.tests." (encodeRows [])])
    ∧ applyPlan ⟨some []⟩ [] { name := "unit.tests.", records := [] } =
      [APICall.createZone "unit.tests.",
       APICall.updateZone "unit.tests." (encodeRows [])] :=
  ⟨(claim_zone_creation_flow ⟨some [("unit.tests.", exampleItem)]⟩ []
      { name := "unit.tests.", records := [] }).1
      ((List.mergeSort_perm _ _).mem_iff.mpr (by decide)),
   (claim_zone_creation_flow ⟨some []⟩ [] { name := "unit.tests.", records := [] }).2
      (fun h => absurd ((List.mergeSort_perm _ _).mem_iff.mp h) (by decide))⟩

/-- C8 counterexample: `create_zone` caches the handle under the argument
exactly as given, so after `create_zone "x"` (no trailing dot) the lookup
on the trailing-dot form `"x."` finds nothing, while the lookup on the
argument itself returns the handle. -/
theorem claim_create_zone_cache_counterexample :
    (get_zone (create_zone ⟨some []⟩ [] "x" exampleItem).2 []
      (add_trailing_dot "x")).1 = none
    ∧ (get_zone (create_zone ⟨some []⟩ [] "x" exampleItem).2 [] "x").1 =
      some exampleItem := by
  constructor <;> decide

/-- C8 (amended): `create_zone` sends the wire `Name` and `Status.Zone`
fields with the trailing dot stripped and caches the returned handle under
the zone-name argument exactly as given (the trailing-dot form at its call
sites), so a subsequent `get_zone` on that same argument returns the
created handle with the cache untouched and without consulting the remote
list again (no new bulk fetch). -/
theorem claim_create_zone_cache (st : APIState) (remote : List CommonServiceItem)
    (zone_name : String) (respItem : CommonServiceItem) :
    (create_zone st remote zone_name respItem).1.name = remove_trailing_dot zone_name
    ∧ (create_zone st remote zone_name respItem).1.statusZone =
      remove_trailing_dot zone_name
    ∧ ∀ remote₂,
        get_zone (create_zone st remote zone_name respItem).2 remote₂ zone_name =
          (some respItem, (create_zone st remote zone_name respItem).2) := by
  refine ⟨rfl, rfl, ?_⟩
  intro remote₂
  simp [get_zone, get_common_service_item_map, create_zone, assocFind_mapSet_self]

/-- C9: populating a zone absent from the remote zone directory returns
the boolean "does not exist" signal and leaves the zone's record
collection unchanged. -/
theorem claim_populate_absent (st : APIState) (remote : List CommonServiceItem)
    (zone_name : String) (zoneRecords : List SRecord)
    (h : (get_zone st remote zone_name).1 = none) :
    (populateZone st remote zone_name zoneRecords).1 = false
    ∧ (populateZone st remote zone_name zoneRecords).2.1 = zoneRecords := by
  simp [populateZone, h]

/-- Witness for C9 at an empty cache. -/
theorem claim_populate_absent_witness :
    ((get_zone ⟨some []⟩ [] "unit.tests.").1 = none)
    ∧ (populateZone ⟨some []⟩ [] "unit.tests." exampleRecords).1 = false
    ∧ (populateZone ⟨some []⟩ [] "unit.tests." exampleRecords).2.1 = exampleRecords :=
  ⟨rfl,
   (claim_populate_absent ⟨some []⟩ [] "unit.tests." exampleRecords rfl).1,
   (claim_populate_absent ⟨some []⟩ [] "unit.tests." exampleRecords rfl).2⟩

/-- C10: `list_zones` returns the cached zone names sorted in ascending
lexicographic order; the result is a permutation of the cached names, not
their cache insertion or remote arrival order. -/
theorem claim_list_zones_sorted (st : APIState) (remote : List CommonServiceItem) :
    (list_zones st remote).1.Pairwise (· ≤ ·)
    ∧ (list_zones st remote).1.Perm (get_zone_names st remote).1 := by
  constructor
  · have htrans : ∀ a b c : String, decide (a ≤ b) = true → decide (b ≤ c) = true →
        decide (a ≤ c) = true := by
      intro a b c hab hbc
      exact decide_eq_true (le_trans (of_decide_eq_true hab) (of_decide_eq_true hbc))
    have htotal : ∀ a b : String, (decide (a ≤ b) || decide (b ≤ a)) = true := by
      intro a b
      rcases le_total a b with h | h <;> simp [h]
    have h := List.sorted_mergeSort htrans htotal ((get_zone_names st remote).1)
    exact h.imp fun hab => of_decide_eq_true hab
  · exact List.mergeSort_perm _ _

/-- C1: encoding a well-formed structured record set (supported types,
names other than the literal `"@"`, at least one value each, values
well-formed for their type, distinct (name, type) pairs) to flat rows and
decoding those rows reproduces the record set exactly: same names, types,
ttls, and value lists in order. -/
theorem claim_roundtrip (recs : List SRecord)
    (hwf : ∀ r ∈ recs, WFRecord r)
    (hnd : (recs.map fun r => (r.name, r.type)).Nodup) :
    decodeRecords (encodeRows recs) = recs := by
  have hsup : ∀ r ∈ recs, r.type ∈ SUPPORTS := fun r hr => (hwf r hr).1
  have hname : ∀ r ∈ recs, r.name ≠ "@" := fun r hr => (hwf r hr).2.1
  have hvals : ∀ r ∈ recs, r.values ≠ [] := fun r hr => (hwf r hr).2.2.1
  have hwfv : ∀ r ∈ recs, ∀ v ∈ r.values, WFValue r.type v :=
    fun r hr => (hwf r hr).2.2.2
  have hrecsnd : recs.Nodup := List.Nodup.of_map _ hnd
  have hinj := List.inj_on_of_nodup_map hnd
  have hknd : (recs.map recKey).Nodup := by
    refine List.Nodup.map_on ?_ hrecsnd
    intro x hx y hy hkey
    have hd : (wireName x.name).data ++ Char.ofNat 0 :: x.type.data =
        (wireName y.name).data ++ Char.ofNat 0 :: y.type.data := by
      have hdd := congrArg String.data hkey
      rwa [recKey_data, recKey_data] at hdd
    obtain ⟨hn, ht⟩ := sep_inj (Char.ofNat 0) _ _ _ _
      (supports_no_nul _ (hsup x hx)) (supports_no_nul _ (hsup y hy)) hd
    have hwn : wireName x.name = wireName y.name := by
      calc wireName x.name = String.mk (wireName x.name).data := rfl
        _ = String.mk (wireName y.name).data := by rw [hn]
        _ = wireName y.name := rfl
    have htype : x.type = y.type := by
      calc x.type = String.mk x.type.data := rfl
        _ = String.mk y.type.data := by rw [ht]
        _ = y.type := rfl
    have hxy : x.name = y.name := wireName_inj _ _ (hname x hx) (hname y hy) hwn
    exact hinj hx hy (by rw [hxy, htype])
  unfold decodeRecords
  rw [rrsetMap_encodeRows recs hsup hvals hknd, List.map_map]
  refine (List.map_congr_left ?_).trans (List.map_id recs)
  intro r hr
  show SRecord.mk (groupOf r).name (groupOf r).type (groupOf r).ttl
      ((groupOf r).rdatas.map (parseValue (groupOf r).type)) = id r
  simp only [groupOf, List.map_map, id]
  rw [unapex_wire _ (hname r hr)]
  have hvalseq : r.values.map (parseValue r.type ∘ encodeValue r.type) = r.values := by
    refine (List.map_congr_left ?_).trans (List.map_id r.values)
    intro v hv
    exact parse_encodeValue r.type v (hwfv r hr v hv)
  rw [hvalseq]

/-- Witness for C1 at the sample records. -/
theorem claim_roundtrip_witness :
    (∀ r ∈ exampleRecords, WFRecord r)
    ∧ (exampleRecords.map fun r => (r.name, r.type)).Nodup
    ∧ decodeRecords (encodeRows exampleRecords) = exampleRecords :=
  ⟨by decide, by decide, claim_roundtrip exampleRecords (by decide) (by decide)⟩

end SakuraCloud
